import Mathlib

/-!
Shallow embedding of the ballistica developer console
(`src/ballistica/base/ui/dev_console.cc`) and proofs about the
specified behaviour of its state machine, widgets, command handling,
history ring and line buffer.

Rendering (`Draw`, meshes, colors), audio cues and the Python string-edit
adapter are external effects not modelled here; the logic-state mutations
of every handler are embedded faithfully.  Machine floats used for widget
geometry are modelled as rationals (the hit-test logic is pure order
arithmetic); C++ signed `int` arithmetic on the history cursor is modelled
as `Int` with truncated division (`Int.tmod`), which is the C++ `%`
semantics.
-/

namespace DevConsoleModel

/-- `kDevConsoleLineLimit` from dev_console.cc (line 26). -/
def kDevConsoleLineLimit : Nat := 80

/-- `kDevConsoleStringBreakUpSize` from dev_console.cc (line 27): the
line-break width budget handed to `BreakUpString`. -/
def kDevConsoleStringBreakUpSize : Nat := 1950

/-- The visibility states of `DevConsole::State_`. -/
inductive VisState where
  | kInactive
  | kMini
  | kFull
deriving DecidableEq, Repr

/-- The SDL key symbols that `HandleKeyPress` / `HandleKeyRelease`
switch on.  `backquote` and `f2` are the two activate keys
(`kDevConsoleActivateKey1/2`); all other key codes fall into `other`. -/
inductive SDLKey where
  | backquote
  | f2
  | escape
  | backspace
  | delete
  | up
  | down
  | kpEnter
  | returnKey
  | other (code : Nat)
deriving DecidableEq, Repr

/-- A finalized output line (`DevConsole::Line_`): its text and creation
time.  The lazily cached text mesh is render-only state, not modelled. -/
structure Line where
  text : List Char
  creationTime : Nat
deriving DecidableEq, Repr

/-- The logic-thread state of `DevConsole` that the handlers mutate.
`inputHistory` is the deque `input_history_` with the list head being the
deque front (the newest entry, since `Exec` does `push_front`);
`lines` is the deque `lines_` with the list head being the deque front
(the oldest line, since `Print` does `push_back` / `pop_front`);
`lastLine` is the accumulator `last_line_`. -/
structure DevConsoleState where
  state : VisState
  statePrev : VisState
  transitionStart : Nat
  inputEnabled : Bool
  inputString : String
  inputTextDirty : Bool
  inputHistory : List String
  inputHistoryPosition : Int
  lines : List Line
  lastLine : List Char
deriving DecidableEq, Repr

attribute [ext] DevConsoleState

/-- The freshly constructed console: inactive, empty buffers, input not
yet enabled (`EnableInput` has not run). -/
def initialState : DevConsoleState :=
  { state := VisState.kInactive
    statePrev := VisState.kInactive
    transitionStart := 0
    inputEnabled := false
    inputString := ""
    inputTextDirty := false
    inputHistory := []
    inputHistoryPosition := 0
    lines := []
    lastLine := [] }

/-- The `state_`-cycling switch inside `DevConsole::ToggleState`
(lines 603-613). -/
def toggleVis : VisState → VisState
  | VisState.kInactive => VisState.kMini
  | VisState.kMini => VisState.kFull
  | VisState.kFull => VisState.kInactive

/-- `DevConsole::ToggleState` (lines 600-616): records the previous
state, advances the cycle and stamps the transition start.  The audio
blip is an external effect. -/
def toggleState (now : Nat) (s : DevConsoleState) : DevConsoleState :=
  { s with
    statePrev := s.state
    state := toggleVis s.state
    transitionStart := now }

/-- `DevConsole::Dismiss` (lines 589-598): no-op when already inactive,
otherwise forces the state to inactive. -/
def dismiss (now : Nat) (s : DevConsoleState) : DevConsoleState :=
  if s.state = VisState.kInactive then s
  else
    { s with
      statePrev := s.state
      state := VisState.kInactive
      transitionStart := now }

/-- Result of `DevConsole::Exec`: the new console state, the command text
handed to `SubmitCommand_` (the external execution boundary), if any,
and whether the not-enabled warning was logged. -/
structure ExecResult where
  state : DevConsoleState
  submitted : Option String
  warned : Bool
deriving DecidableEq, Repr

/-- `DevConsole::Exec` (lines 542-561).  When input is not yet enabled it
logs a warning and returns with nothing mutated.  Otherwise it resets the
history cursor, either wipes the line buffer (exact match against
`"clear"`; the source does no trimming) or submits the command verbatim,
pushes the raw input string onto the front of the history deque, pops the
back when the deque exceeds 100 entries, and clears the input string. -/
def exec (s : DevConsoleState) : ExecResult :=
  if !s.inputEnabled then
    { state := s, submitted := none, warned := true }
  else
    { state :=
        { s with
          inputHistoryPosition := 0
          lines := if s.inputString = "clear" then [] else s.lines
          lastLine := if s.inputString = "clear" then [] else s.lastLine
          inputHistory :=
            if (s.inputString :: s.inputHistory).length > 100 then
              (s.inputString :: s.inputHistory).dropLast
            else s.inputString :: s.inputHistory
          inputString := ""
          inputTextDirty := true }
      submitted :=
        if s.inputString = "clear" then none else some s.inputString
      warned := false }

/-- `DevConsole::HandleKeyPress` (lines 453-540).  `locked` models the
`demo_build/arcade_build` lockdown in which the activate keys do not
toggle; `now` is the display time stamped into transitions.  Returns the
updated state and whether the event was consumed.  C++ `%` on signed
`int` is truncated division, i.e. `Int.tmod`; when the truncated modulo
of the cursor is negative the lookup loop over the history deque matches
no index, so the input string is left untouched (the cursor still
moves). -/
def handleKeyPress (locked : Bool) (now : Nat) (s : DevConsoleState)
    (k : SDLKey) : DevConsoleState × Bool :=
  if k = SDLKey.backquote ∨ k = SDLKey.f2 then
    (if locked then s else toggleState now s, true)
  else if s.state = VisState.kInactive then
    (s, false)
  else
    match k with
    | SDLKey.escape => (dismiss now s, true)
    | SDLKey.backspace | SDLKey.delete =>
        (if s.inputString.isEmpty then s
         else
           { s with
             inputString := s.inputString.dropRight 1
             inputTextDirty := true }, true)
    | SDLKey.up | SDLKey.down =>
        if s.inputHistory.isEmpty then (s, true)
        else
          let pos :=
            if k = SDLKey.up then s.inputHistoryPosition + 1
            else s.inputHistoryPosition - 1
          let used := Int.tmod (pos - 1) (s.inputHistory.length : Int)
          let s1 := { s with inputHistoryPosition := pos }
          if 0 ≤ used then
            ({ s1 with
               inputString := s1.inputHistory.getD used.toNat ""
               inputTextDirty := true }, true)
          else (s1, true)
    | SDLKey.kpEnter | SDLKey.returnKey => ((exec s).state, true)
    | _ => (s, true)

/-- `DevConsole::HandleTextEditing` (lines 618-631): inactive consoles
ignore text events; the exact one-character string of a back-tick is
swallowed unconsumed; everything else is appended to the input string. -/
def handleTextEditing (s : DevConsoleState) (text : String) :
    DevConsoleState × Bool :=
  if s.state = VisState.kInactive then (s, false)
  else if text = "`" then (s, false)
  else
    ({ s with
       inputString := s.inputString ++ text
       inputTextDirty := true }, true)

/-- `DevConsole::HandleKeyRelease` (lines 633-642): the two activate keys
are always absorbed; otherwise key-ups are absorbed exactly when the
console is not inactive. -/
def handleKeyRelease (s : DevConsoleState) (k : SDLKey) : Bool :=
  if k = SDLKey.backquote ∨ k = SDLKey.f2 then true
  else decide (s.state ≠ VisState.kInactive)

/-! ## Widgets

`DevConsole::Button_`, `ToggleButton_` and `TabButton_` (dev_console.cc
lines 92-282).  Geometry uses rationals in place of machine floats: the
hit test is pure order arithmetic, so the claims about press/release
semantics are unaffected by rounding.  The bound `Runnable` actions are
modelled by the `Bool` that `handleMouseUp` returns: `true` exactly when
the source would run the bound call. -/

/-- `DevButtonAttach_` (line 33). -/
inductive DevButtonAttach where
  | kLeft
  | kCenter
  | kRight
deriving DecidableEq, Repr

/-- `XOffs` (lines 35-46): resolves an attach anchor to an absolute
x-offset for the current screen width. -/
def xOffs (screenWidth : ℚ) : DevButtonAttach → ℚ
  | DevButtonAttach.kLeft => 0
  | DevButtonAttach.kRight => screenWidth
  | DevButtonAttach.kCenter => screenWidth / 2

/-- `DevConsole::Button_` (lines 92-149).  The label/text group is
render-only state and is omitted. -/
structure Button where
  attach : DevButtonAttach
  x : ℚ
  y : ℚ
  width : ℚ
  height : ℚ
  pressed : Bool
deriving DecidableEq, Repr

/-- `Button_::InUs` (lines 118-121): anchor-adjusted inclusive box test. -/
def Button.inUs (b : Button) (screenWidth mx my : ℚ) : Bool :=
  let mx := mx - xOffs screenWidth b.attach
  decide (b.x ≤ mx ∧ mx ≤ b.x + b.width ∧ b.y ≤ my ∧ my ≤ b.y + b.height)

/-- `Button_::HandleMouseDown` (lines 123-129). -/
def Button.handleMouseDown (b : Button) (screenWidth mx my : ℚ) :
    Button × Bool :=
  if b.inUs screenWidth mx my then ({ b with pressed := true }, true)
  else (b, false)

/-- `Button_::HandleMouseUp` (lines 131-140).  The second component is
`true` exactly when the bound call runs. -/
def Button.handleMouseUp (b : Button) (screenWidth mx my : ℚ) :
    Button × Bool :=
  if b.pressed then
    if b.inUs screenWidth mx my then ({ b with pressed := false }, true)
    else ({ b with pressed := false }, false)
  else (b, false)

/-- `DevConsole::ToggleButton_` (lines 151-217), with its persistent
`on` flag.  Which of the two bound calls would run on a toggling release
is determined by the new `on` value. -/
structure ToggleButton where
  attach : DevButtonAttach
  x : ℚ
  y : ℚ
  width : ℚ
  height : ℚ
  pressed : Bool
  /-- The C++ member `on` (`on` is a Lean keyword). -/
  isOn : Bool
deriving DecidableEq, Repr

/-- `ToggleButton_::InUs` (lines 181-184). -/
def ToggleButton.inUs (b : ToggleButton) (screenWidth mx my : ℚ) : Bool :=
  let mx := mx - xOffs screenWidth b.attach
  decide (b.x ≤ mx ∧ mx ≤ b.x + b.width ∧ b.y ≤ my ∧ my ≤ b.y + b.height)

/-- `ToggleButton_::HandleMouseDown` (lines 186-192). -/
def ToggleButton.handleMouseDown (b : ToggleButton) (screenWidth mx my : ℚ) :
    ToggleButton × Bool :=
  if b.inUs screenWidth mx my then ({ b with pressed := true }, true)
  else (b, false)

/-- `ToggleButton_::HandleMouseUp` (lines 194-205): a release on a
pressed button clears `pressed`; when it also hits, `on` flips and the
matching bound call runs (second component `true`). -/
def ToggleButton.handleMouseUp (b : ToggleButton) (screenWidth mx my : ℚ) :
    ToggleButton × Bool :=
  if b.pressed then
    if b.inUs screenWidth mx my then
      ({ b with pressed := false, isOn := !b.isOn }, true)
    else ({ b with pressed := false }, false)
  else (b, false)

/-- `DevConsole::TabButton_` (lines 219-282), with its `selected` flag. -/
structure TabButton where
  attach : DevButtonAttach
  x : ℚ
  y : ℚ
  width : ℚ
  height : ℚ
  pressed : Bool
  selected : Bool
deriving DecidableEq, Repr

/-- `TabButton_::InUs` (lines 248-251). -/
def TabButton.inUs (b : TabButton) (screenWidth mx my : ℚ) : Bool :=
  let mx := mx - xOffs screenWidth b.attach
  decide (b.x ≤ mx ∧ mx ≤ b.x + b.width ∧ b.y ≤ my ∧ my ≤ b.y + b.height)

/-- `TabButton_::HandleMouseDown` (lines 253-259): an already selected
tab does not accept a new press. -/
def TabButton.handleMouseDown (b : TabButton) (screenWidth mx my : ℚ) :
    TabButton × Bool :=
  if b.inUs screenWidth mx my ∧ b.selected = false then
    ({ b with pressed := true }, true)
  else (b, false)

/-- `TabButton_::HandleMouseUp` (lines 261-270). -/
def TabButton.handleMouseUp (b : TabButton) (screenWidth mx my : ℚ) :
    TabButton × Bool :=
  if b.pressed then
    if b.inUs screenWidth mx my then ({ b with pressed := false }, true)
    else ({ b with pressed := false }, false)
  else (b, false)

/-! ## Line buffer / `Print` -/

/-- Modelled from the spec: `TextGraphics::BreakUpString`
(text_graphics.cc is not part of the shown sources).  Per §4.3 of the
spec it splits the accumulated text into pieces that each stay within
the fixed width budget, preserving byte order, never splitting inside a
code point, and always returns at least one (possibly empty) piece whose
last element is the remainder accumulator.  Width is modelled as the
code-point count against the budget `b`. -/
def breakUpString (b : Nat) (s : List Char) : List (List Char) :=
  if h : b = 0 ∨ s.length ≤ b then [s]
  else s.take b :: breakUpString b (s.drop b)
termination_by s.length
decreasing_by
  simp only [not_or, not_le] at h
  simp only [List.length_drop]
  omega

/-- One `lines_.emplace_back` followed by the capacity check
`if (lines_.size() > kDevConsoleLineLimit) lines_.pop_front()`
(Print, lines 654-657), over an explicit `limit`. -/
def pushLine (limit : Nat) (ls : List Line) (l : Line) : List Line :=
  if limit < (ls ++ [l]).length then (ls ++ [l]).tail else ls ++ [l]

/-- `DevConsole::Print` (lines 644-661): append to the accumulator,
break it up against the budget, finalize every piece but the last
(evicting the oldest line past the capacity limit) and keep the last
piece as the new accumulator.  `now` is the display time stamped onto
finalized lines; `Utils::GetValidUTF8` is the identity on the
code-point sequences modelled here. -/
def printAppend (now : Nat) (s : DevConsoleState) (t : List Char) :
    DevConsoleState :=
  { s with
    lines :=
      (breakUpString kDevConsoleStringBreakUpSize
          (s.lastLine ++ t)).dropLast.foldl
        (fun ls txt => pushLine kDevConsoleLineLimit ls
          { text := txt, creationTime := now }) s.lines
    lastLine :=
      (breakUpString kDevConsoleStringBreakUpSize
        (s.lastLine ++ t)).getLastD [] }

/-- A sequence of `Print` calls (all stamped at time 0; the claims do
not constrain timestamps). -/
def printMany (s : DevConsoleState) (ts : List (List Char)) :
    DevConsoleState :=
  ts.foldl (printAppend 0) s

/-- The eviction-free variant of `printAppend`: identical except that no
line is ever popped from the front.  Used to state when the bounded
buffer has lost nothing. -/
def printAppendU (now : Nat) (s : DevConsoleState) (t : List Char) :
    DevConsoleState :=
  { s with
    lines :=
      s.lines ++ (breakUpString kDevConsoleStringBreakUpSize
          (s.lastLine ++ t)).dropLast.map
        (fun txt => { text := txt, creationTime := now })
    lastLine :=
      (breakUpString kDevConsoleStringBreakUpSize
        (s.lastLine ++ t)).getLastD [] }

/-- A sequence of eviction-free `Print` calls. -/
def printManyU (s : DevConsoleState) (ts : List (List Char)) :
    DevConsoleState :=
  ts.foldl (printAppendU 0) s

/-- A sequence of command submissions: each sets the input string (as
`set_input_string` / typing would) and presses Enter (`Exec`). -/
def submitMany (s : DevConsoleState) (cmds : List String) :
    DevConsoleState :=
  cmds.foldl (fun st c => (exec { st with inputString := c }).state) s

/-! ## Helper lemmas -/

/-- Three toggles return any visibility state to itself. -/
lemma toggleVis_three (x : VisState) : toggleVis^[3] x = x := by
  cases x <;> rfl

/-! ## Claim theorems -/

/-- C5: The visibility state machine has exactly the reachable states
Inactive, Mini, Full: `ToggleState` maps Inactive to Mini, Mini to Full
and Full to Inactive, so toggling any multiple of three times from
Inactive returns to Inactive, and `Dismiss` maps every state to
Inactive. -/
theorem c5_visibility_cycle :
    toggleVis VisState.kInactive = VisState.kMini ∧
    toggleVis VisState.kMini = VisState.kFull ∧
    toggleVis VisState.kFull = VisState.kInactive ∧
    (∀ (now : Nat) (s : DevConsoleState),
      (toggleState now s).state = toggleVis s.state) ∧
    (∀ n : Nat, n % 3 = 0 →
      toggleVis^[n] VisState.kInactive = VisState.kInactive) ∧
    (∀ (now : Nat) (s : DevConsoleState),
      (dismiss now s).state = VisState.kInactive) := by
  refine ⟨rfl, rfl, rfl, fun _ _ => rfl, ?_, ?_⟩
  · intro n hn
    obtain ⟨k, rfl⟩ := Nat.dvd_of_mod_eq_zero hn
    induction k with
    | zero => rfl
    | succ m ih =>
        have h3 : 3 * (m + 1) = 3 * m + 3 := by ring
        rw [h3, Function.iterate_add_apply, toggleVis_three]
        exact ih (by omega)
  · intro now s
    unfold dismiss
    split
    · assumption
    · rfl

/-- Witness for C5 at concrete inputs: three toggles from Inactive land
back on Inactive, and dismissing a toggled console is Inactive. -/
theorem c5_visibility_cycle_witness :
    toggleVis^[3] VisState.kInactive = VisState.kInactive ∧
    (dismiss 7 (toggleState 3 initialState)).state = VisState.kInactive :=
  ⟨c5_visibility_cycle.2.2.2.2.1 3 (by decide),
   c5_visibility_cycle.2.2.2.2.2 7 (toggleState 3 initialState)⟩

/-- C6: with input not yet enabled, `Exec` logs the warning, submits
nothing to the execution boundary, and leaves the entire console state
(input string, history ring, history cursor, line buffer, everything)
unchanged. -/
theorem c6_exec_requires_enabled_input (s : DevConsoleState)
    (h : s.inputEnabled = false) :
    exec s = { state := s, submitted := none, warned := true } := by
  unfold exec
  rw [h]
  rfl

/-- Witness for C6: the freshly constructed console has input disabled
and an `Exec` on it is a warned no-op. -/
theorem c6_exec_requires_enabled_input_witness :
    initialState.inputEnabled = false ∧
    exec initialState =
      { state := initialState, submitted := none, warned := true } :=
  ⟨rfl, c6_exec_requires_enabled_input initialState rfl⟩

/-- C9: a key-release of either activate key is consumed in every
console state, and any other key-release is consumed exactly when the
console is not inactive. -/
theorem c9_key_release_consumption (s : DevConsoleState) (k : SDLKey) :
    ((k = SDLKey.backquote ∨ k = SDLKey.f2) →
      handleKeyRelease s k = true) ∧
    (k ≠ SDLKey.backquote → k ≠ SDLKey.f2 →
      (handleKeyRelease s k = true ↔ s.state ≠ VisState.kInactive)) := by
  constructor
  · intro h
    simp [handleKeyRelease, h]
  · intro h1 h2
    simp [handleKeyRelease, h1, h2]

/-- Witness for C9: the activate key is consumed while inactive, and an
ordinary key-release is not consumed while inactive. -/
theorem c9_key_release_consumption_witness :
    handleKeyRelease initialState SDLKey.backquote = true ∧
    (handleKeyRelease initialState (SDLKey.other 7) = true ↔
      initialState.state ≠ VisState.kInactive) :=
  ⟨(c9_key_release_consumption initialState SDLKey.backquote).1 (Or.inl rfl),
   (c9_key_release_consumption initialState (SDLKey.other 7)).2
     (by decide) (by decide)⟩

/-- C10: while inactive every text-input event is unconsumed and leaves
the input string alone; while active, exactly the one-character back-tick
string is swallowed (unconsumed, input unchanged) and every other string
is appended verbatim and consumed. -/
theorem c10_text_editing (s : DevConsoleState) (t : String) :
    (s.state = VisState.kInactive → handleTextEditing s t = (s, false)) ∧
    (s.state ≠ VisState.kInactive →
      (t = "`" → handleTextEditing s t = (s, false)) ∧
      (t ≠ "`" →
        handleTextEditing s t =
          ({ s with
             inputString := s.inputString ++ t
             inputTextDirty := true }, true))) := by
  refine ⟨fun h => ?_, fun h => ⟨fun ht => ?_, fun ht => ?_⟩⟩
  · simp [handleTextEditing, h]
  · simp [handleTextEditing, h, ht]
  · simp [handleTextEditing, h, ht]

/-- The console used as an active-state witness. -/
def activeConsole : DevConsoleState :=
  { initialState with state := VisState.kFull }

/-- Witness for C10: while active, a longer string containing a back-tick
is appended verbatim and consumed, the exact back-tick string is not, and
while inactive nothing is consumed. -/
theorem c10_text_editing_witness :
    handleTextEditing activeConsole "a`b" =
      ({ activeConsole with
         inputString := activeConsole.inputString ++ "a`b"
         inputTextDirty := true }, true) ∧
    handleTextEditing activeConsole "`" = (activeConsole, false) ∧
    handleTextEditing initialState "x" = (initialState, false) :=
  ⟨((c10_text_editing activeConsole "a`b").2 (by decide)).2 (by decide),
   ((c10_text_editing activeConsole "`").2 (by decide)).1 rfl,
   (c10_text_editing initialState "x").1 rfl⟩

/-- The console state of the C8 scenario: active, with command history
`["c3", "c2", "c1"]` (newest first) and the history cursor at 0. -/
def c8Console : DevConsoleState :=
  { initialState with
    state := VisState.kFull
    inputHistory := ["c3", "c2", "c1"] }

/-- One Up key press as routed through `HandleKeyPress` (unlocked build,
display time 0). -/
def upPress (s : DevConsoleState) : DevConsoleState :=
  (handleKeyPress false 0 s SDLKey.up).1

/-- C8: from history `["c3","c2","c1"]` (newest first) and cursor 0,
pressing Up three times yields input strings `c3`, `c2`, `c1`, and a
fourth Up wraps back to `c3`. -/
theorem c8_up_navigation_wraps :
    (upPress c8Console).inputString = "c3" ∧
    (upPress (upPress c8Console)).inputString = "c2" ∧
    (upPress (upPress (upPress c8Console))).inputString = "c1" ∧
    (upPress (upPress (upPress (upPress c8Console)))).inputString
      = "c3" := by
  decide

/-- `Button_` press: `pressed` afterwards is the old flag or the hit. -/
lemma button_down_pressed (sw mx my : ℚ) (b : Button) :
    (b.handleMouseDown sw mx my).1.pressed = (b.pressed || b.inUs sw mx my) := by
  unfold Button.handleMouseDown
  cases h : b.inUs sw mx my <;> simp [h]

/-- `Button_` press consumption equals the hit-test. -/
lemma button_down_consumed (sw mx my : ℚ) (b : Button) :
    (b.handleMouseDown sw mx my).2 = b.inUs sw mx my := by
  unfold Button.handleMouseDown
  cases h : b.inUs sw mx my <;> simp [h]

/-- A `Button_` release always leaves `pressed` cleared. -/
lemma button_up_pressed (sw mx my : ℚ) (b : Button) :
    (b.handleMouseUp sw mx my).1.pressed = false := by
  unfold Button.handleMouseUp
  cases hp : b.pressed <;> cases h : b.inUs sw mx my <;> simp [hp, h]

/-- A `Button_` release fires the bound call exactly when the button was
pressed and the release hits. -/
lemma button_up_fired (sw mx my : ℚ) (b : Button) :
    (b.handleMouseUp sw mx my).2 = (b.pressed && b.inUs sw mx my) := by
  unfold Button.handleMouseUp
  cases hp : b.pressed <;> cases h : b.inUs sw mx my <;> simp [hp, h]

/-- A `Button_` press does not move the hit box. -/
lemma button_down_inUs (sw mx my x y : ℚ) (b : Button) :
    (b.handleMouseDown sw mx my).1.inUs sw x y = b.inUs sw x y := by
  unfold Button.handleMouseDown
  cases h : b.inUs sw mx my <;> simp [h, Button.inUs]

/-- `ToggleButton_` press: `pressed` afterwards is the old flag or the hit. -/
lemma toggleButton_down_pressed (sw mx my : ℚ) (b : ToggleButton) :
    (b.handleMouseDown sw mx my).1.pressed
      = (b.pressed || b.inUs sw mx my) := by
  unfold ToggleButton.handleMouseDown
  cases h : b.inUs sw mx my <;> simp [h]

/-- `ToggleButton_` press consumption equals the hit-test. -/
lemma toggleButton_down_consumed (sw mx my : ℚ) (b : ToggleButton) :
    (b.handleMouseDown sw mx my).2 = b.inUs sw mx my := by
  unfold ToggleButton.handleMouseDown
  cases h : b.inUs sw mx my <;> simp [h]

/-- A `ToggleButton_` release always leaves `pressed` cleared. -/
lemma toggleButton_up_pressed (sw mx my : ℚ) (b : ToggleButton) :
    (b.handleMouseUp sw mx my).1.pressed = false := by
  unfold ToggleButton.handleMouseUp
  cases hp : b.pressed <;> cases h : b.inUs sw mx my <;> simp [hp, h]

/-- A `ToggleButton_` release fires one of its two bound calls exactly
when the button was pressed and the release hits. -/
lemma toggleButton_up_fired (sw mx my : ℚ) (b : ToggleButton) :
    (b.handleMouseUp sw mx my).2 = (b.pressed && b.inUs sw mx my) := by
  unfold ToggleButton.handleMouseUp
  cases hp : b.pressed <;> cases h : b.inUs sw mx my <;> simp [hp, h]

/-- A `ToggleButton_` press does not move the hit box. -/
lemma toggleButton_down_inUs (sw mx my x y : ℚ) (b : ToggleButton) :
    (b.handleMouseDown sw mx my).1.inUs sw x y = b.inUs sw x y := by
  unfold ToggleButton.handleMouseDown
  cases h : b.inUs sw mx my <;> simp [h, ToggleButton.inUs]

/-- `TabButton_` press: `pressed` is set only by a hit on an unselected
tab. -/
lemma tabButton_down_pressed (sw mx my : ℚ) (b : TabButton) :
    (b.handleMouseDown sw mx my).1.pressed
      = (b.pressed || (b.inUs sw mx my && !b.selected)) := by
  unfold TabButton.handleMouseDown
  cases hs : b.selected <;> cases h : b.inUs sw mx my <;> simp [hs, h]

/-- `TabButton_` press consumption: hit on an unselected tab. -/
lemma tabButton_down_consumed (sw mx my : ℚ) (b : TabButton) :
    (b.handleMouseDown sw mx my).2 = (b.inUs sw mx my && !b.selected) := by
  unfold TabButton.handleMouseDown
  cases hs : b.selected <;> cases h : b.inUs sw mx my <;> simp [hs, h]

/-- A `TabButton_` release always leaves `pressed` cleared. -/
lemma tabButton_up_pressed (sw mx my : ℚ) (b : TabButton) :
    (b.handleMouseUp sw mx my).1.pressed = false := by
  unfold TabButton.handleMouseUp
  cases hp : b.pressed <;> cases h : b.inUs sw mx my <;> simp [hp, h]

/-- A `TabButton_` release fires the bound call exactly when the tab was
pressed and the release hits. -/
lemma tabButton_up_fired (sw mx my : ℚ) (b : TabButton) :
    (b.handleMouseUp sw mx my).2 = (b.pressed && b.inUs sw mx my) := by
  unfold TabButton.handleMouseUp
  cases hp : b.pressed <;> cases h : b.inUs sw mx my <;> simp [hp, h]

/-- A `TabButton_` press does not move the hit box. -/
lemma tabButton_down_inUs (sw mx my x y : ℚ) (b : TabButton) :
    (b.handleMouseDown sw mx my).1.inUs sw x y = b.inUs sw x y := by
  unfold TabButton.handleMouseDown
  split <;> simp [TabButton.inUs]

/-- C3: for each widget variant, a press sets `pressed` only when the
hit-test passes (and, for tabs, the tab is unselected); a release always
leaves `pressed` cleared no matter where it lands; the bound action fires
exactly when the widget was pressed and the release also hit-tests true.
The composite equations give the two scenarios: press-hit then
release-off clears `pressed` without firing, press-hit then release-hit
fires exactly once. -/
theorem c3_widget_press_release (sw mx my mx2 my2 : ℚ)
    (b : Button) (tb : ToggleButton) (tab : TabButton) :
    ((b.handleMouseDown sw mx my).1.pressed
        = (b.pressed || b.inUs sw mx my)) ∧
    ((b.handleMouseDown sw mx my).2 = b.inUs sw mx my) ∧
    ((b.handleMouseUp sw mx my).1.pressed = false) ∧
    ((b.handleMouseUp sw mx my).2 = (b.pressed && b.inUs sw mx my)) ∧
    (((b.handleMouseDown sw mx my).1.handleMouseUp sw mx2 my2).1.pressed
        = false) ∧
    (((b.handleMouseDown sw mx my).1.handleMouseUp sw mx2 my2).2
        = ((b.pressed || b.inUs sw mx my) && b.inUs sw mx2 my2)) ∧
    ((tb.handleMouseDown sw mx my).1.pressed
        = (tb.pressed || tb.inUs sw mx my)) ∧
    ((tb.handleMouseDown sw mx my).2 = tb.inUs sw mx my) ∧
    ((tb.handleMouseUp sw mx my).1.pressed = false) ∧
    ((tb.handleMouseUp sw mx my).2 = (tb.pressed && tb.inUs sw mx my)) ∧
    (((tb.handleMouseDown sw mx my).1.handleMouseUp sw mx2 my2).1.pressed
        = false) ∧
    (((tb.handleMouseDown sw mx my).1.handleMouseUp sw mx2 my2).2
        = ((tb.pressed || tb.inUs sw mx my) && tb.inUs sw mx2 my2)) ∧
    ((tab.handleMouseDown sw mx my).1.pressed
        = (tab.pressed || (tab.inUs sw mx my && !tab.selected))) ∧
    ((tab.handleMouseDown sw mx my).2
        = (tab.inUs sw mx my && !tab.selected)) ∧
    ((tab.handleMouseUp sw mx my).1.pressed = false) ∧
    ((tab.handleMouseUp sw mx my).2
        = (tab.pressed && tab.inUs sw mx my)) ∧
    (((tab.handleMouseDown sw mx my).1.handleMouseUp sw mx2 my2).1.pressed
        = false) ∧
    (((tab.handleMouseDown sw mx my).1.handleMouseUp sw mx2 my2).2
        = ((tab.pressed || (tab.inUs sw mx my && !tab.selected))
            && tab.inUs sw mx2 my2)) := by
  refine ⟨button_down_pressed sw mx my b, button_down_consumed sw mx my b,
    button_up_pressed sw mx my b, button_up_fired sw mx my b,
    button_up_pressed sw mx2 my2 _, ?_,
    toggleButton_down_pressed sw mx my tb,
    toggleButton_down_consumed sw mx my tb,
    toggleButton_up_pressed sw mx my tb, toggleButton_up_fired sw mx my tb,
    toggleButton_up_pressed sw mx2 my2 _, ?_,
    tabButton_down_pressed sw mx my tab, tabButton_down_consumed sw mx my tab,
    tabButton_up_pressed sw mx my tab, tabButton_up_fired sw mx my tab,
    tabButton_up_pressed sw mx2 my2 _, ?_⟩
  · rw [button_up_fired, button_down_pressed, button_down_inUs]
  · rw [toggleButton_up_fired, toggleButton_down_pressed,
      toggleButton_down_inUs]
  · rw [tabButton_up_fired, tabButton_down_pressed, tabButton_down_inUs]

/-- A truncated modulo that came out nonnegative agrees with the
mathematical (Euclidean) modulo. -/
lemma tmod_eq_emod_of_tmod_nonneg {a b : Int} (hb : 0 < b)
    (h : 0 ≤ a.tmod b) : a.tmod b = a % b := by
  conv_rhs => rw [← Int.tdiv_add_tmod a b]
  rw [add_comm, Int.add_mul_emod_self_left]
  exact (Int.emod_eq_of_lt h (Int.tmod_lt_of_pos a hb)).symm

/-- The console state of the C1 counterexample: active, non-empty
history, stored cursor 0, and an input string distinct from every
history entry. -/
def c1Console : DevConsoleState :=
  { initialState with
    state := VisState.kFull
    inputString := "x"
    inputHistory := ["a", "b", "c"] }

/-- C1 counterexample: with history `["a","b","c"]` and stored cursor 0,
pressing Down moves the cursor to −1, so the claim predicts the entry at
`((−1 − 1) mod 3) = 1`, i.e. `"b"`; but C++ `%` truncates, `(−2) % 3`
is `−2`, the lookup loop matches no index, and the input string stays
`"x"`, which is not any history entry at all.  So the index used does
not always lie in `[0, history_length)` and Down does not always update
the input string. -/
theorem c1_cursor_modulo_counterexample :
    (handleKeyPress false 0 c1Console SDLKey.down).1.inputString = "x" ∧
    (∀ t ∈ c1Console.inputHistory, t ≠ "x") ∧
    (c1Console.inputHistoryPosition - 1 - 1)
        % (c1Console.inputHistory.length : Int) = 1 ∧
    c1Console.inputHistory.getD 1 "" = "b" ∧
    Int.tmod (c1Console.inputHistoryPosition - 1 - 1)
        (c1Console.inputHistory.length : Int) = -2 := by
  decide

/-- `HandleKeyPress` on Up/Down with an active console and non-empty
history: the unfolded branch. -/
lemma handleKeyPress_upDown (locked : Bool) (now : Nat)
    (s : DevConsoleState) (k : SDLKey)
    (hact : s.state ≠ VisState.kInactive)
    (hne : s.inputHistory ≠ [])
    (hk : k = SDLKey.up ∨ k = SDLKey.down) :
    handleKeyPress locked now s k =
      (if 0 ≤ Int.tmod
            ((if k = SDLKey.up then s.inputHistoryPosition + 1
              else s.inputHistoryPosition - 1) - 1)
            (s.inputHistory.length : Int) then
        ({ s with
           inputHistoryPosition :=
             if k = SDLKey.up then s.inputHistoryPosition + 1
             else s.inputHistoryPosition - 1
           inputString :=
             s.inputHistory.getD
               (Int.tmod
                 ((if k = SDLKey.up then s.inputHistoryPosition + 1
                   else s.inputHistoryPosition - 1) - 1)
                 (s.inputHistory.length : Int)).toNat ""
           inputTextDirty := true }, true)
      else
        ({ s with
           inputHistoryPosition :=
             if k = SDLKey.up then s.inputHistoryPosition + 1
             else s.inputHistoryPosition - 1 }, true)) := by
  have hemp : s.inputHistory.isEmpty = false := by
    cases hl : s.inputHistory with
    | nil => exact absurd hl hne
    | cons a l => rfl
  rcases hk with rfl | rfl <;> simp [handleKeyPress, hact, hemp]

/-- C1 amended: Up/Down on a non-empty history always move the signed
cursor; the index actually used is the C++ truncated modulo
`(cursor − 1) tmod len`.  Whenever that truncated modulo is nonnegative
it equals the mathematical `(cursor − 1) mod len`, lies in `[0, len)`,
and the input string is replaced with that history entry; when it is
negative (the cursor has wrapped past zero) the input string is left
unchanged. -/
theorem c1_cursor_modulo_amended (locked : Bool) (now : Nat)
    (s : DevConsoleState) (k : SDLKey)
    (hact : s.state ≠ VisState.kInactive)
    (hne : s.inputHistory ≠ [])
    (hk : k = SDLKey.up ∨ k = SDLKey.down)
    (pos : Int)
    (hpos : pos = if k = SDLKey.up then s.inputHistoryPosition + 1
                  else s.inputHistoryPosition - 1) :
    (handleKeyPress locked now s k).1.inputHistoryPosition = pos ∧
    (0 ≤ Int.tmod (pos - 1) (s.inputHistory.length : Int) →
      Int.tmod (pos - 1) (s.inputHistory.length : Int)
          = (pos - 1) % (s.inputHistory.length : Int) ∧
      Int.tmod (pos - 1) (s.inputHistory.length : Int)
          < (s.inputHistory.length : Int) ∧
      (handleKeyPress locked now s k).1.inputString
        = s.inputHistory.getD
            (Int.tmod (pos - 1) (s.inputHistory.length : Int)).toNat "") ∧
    (Int.tmod (pos - 1) (s.inputHistory.length : Int) < 0 →
      (handleKeyPress locked now s k).1.inputString = s.inputString) := by
  have hlen : (0 : Int) < (s.inputHistory.length : Int) := by
    have := List.length_pos.mpr hne
    exact_mod_cast this
  rw [handleKeyPress_upDown locked now s k hact hne hk, ← hpos]
  by_cases h0 : 0 ≤ Int.tmod (pos - 1) (s.inputHistory.length : Int)
  · rw [if_pos h0]
    exact ⟨rfl,
      fun _ => ⟨tmod_eq_emod_of_tmod_nonneg hlen h0,
        Int.tmod_lt_of_pos _ hlen, rfl⟩,
      fun hneg => absurd h0 (not_le.mpr hneg)⟩
  · rw [if_neg h0]
    exact ⟨rfl, fun hge => absurd hge h0, fun _ => rfl⟩

/-- Witness for C1 amended: pressing Up on the C8 console (cursor 0)
moves the cursor to 1, the truncated modulo is 0 (nonnegative), and the
input string becomes the newest entry `"c3"`. -/
theorem c1_cursor_modulo_amended_witness :
    (handleKeyPress false 0 c8Console SDLKey.up).1.inputHistoryPosition
        = 1 ∧
    (handleKeyPress false 0 c8Console SDLKey.up).1.inputString = "c3" := by
  have h := c1_cursor_modulo_amended false 0 c8Console SDLKey.up
    (by decide) (by decide) (Or.inl rfl) 1 (by decide)
  refine ⟨h.1, ?_⟩
  rw [(h.2.1 (by decide)).2.2]
  decide

/-- The console state of the C2 counterexample: input enabled, existing
output, and the input string `" clear"`, whose trimmed form is the
reserved keyword. -/
def c2Console : DevConsoleState :=
  { initialState with
    state := VisState.kFull
    inputEnabled := true
    inputString := " clear"
    lines := [{ text := ['o'], creationTime := 0 }]
    lastLine := ['p'] }

/-- Modelled from the spec: the "trimmed command" of §4.5 (the shown
source never trims) — the string with leading and trailing whitespace
removed. -/
def trimmedCommand (s : String) : String :=
  String.mk
    (((s.data.dropWhile Char.isWhitespace).reverse.dropWhile
        Char.isWhitespace).reverse)

/-- C2 counterexample: `" clear"` trims to the reserved keyword, yet
`Exec` forwards `" clear"` verbatim to the execution boundary and leaves
the line buffer untouched — the source compares the *untrimmed* input
against `"clear"`. -/
theorem c2_clear_counterexample :
    trimmedCommand " clear" = "clear" ∧
    (exec c2Console).submitted = some " clear" ∧
    (exec c2Console).state.lines = [{ text := ['o'], creationTime := 0 }] ∧
    (exec c2Console).state.lastLine = ['p'] := by
  decide

/-- C2 amended: with input enabled, `Exec` wipes both the finalized-line
history and the accumulator and submits nothing exactly when the raw
(untrimmed) input string equals `"clear"`; any other input — including
`" clear"` with whitespace — is dispatched verbatim with the line buffer
left unchanged. -/
theorem c2_clear_amended (s : DevConsoleState)
    (h : s.inputEnabled = true) :
    (s.inputString = "clear" →
      (exec s).state.lines = [] ∧ (exec s).state.lastLine = [] ∧
      (exec s).submitted = none) ∧
    (s.inputString ≠ "clear" →
      (exec s).submitted = some s.inputString ∧
      (exec s).state.lines = s.lines ∧
      (exec s).state.lastLine = s.lastLine) := by
  unfold exec
  rw [h]
  constructor
  · intro hc
    simp [hc]
  · intro hc
    simp [hc]

/-- Witness for C2 amended: on the enabled `c2Console`, the non-`"clear"`
input is submitted verbatim, and with the input replaced by the exact
string `"clear"` the line history is wiped. -/
theorem c2_clear_amended_witness :
    (exec c2Console).submitted = some c2Console.inputString ∧
    (exec { c2Console with inputString := "clear" }).state.lines = [] :=
  ⟨((c2_clear_amended c2Console rfl).2 (by decide)).1,
   ((c2_clear_amended { c2Console with inputString := "clear" } rfl).1
     rfl).1⟩

/-- Truncating the tail before appending does not change a truncation of
the whole. -/
lemma take_append_take (n : Nat) (xs ys : List String) :
    (xs ++ ys.take n).take n = (xs ++ ys).take n := by
  rw [List.take_append_eq_append_take, List.take_append_eq_append_take,
    List.take_take]
  congr 1
  rw [Nat.min_eq_left (Nat.sub_le n xs.length)]

/-- One enabled `Exec` from a within-capacity state: the raw input is
pushed onto the front, truncated to the 100-entry capacity, and the
input string is cleared. -/
lemma exec_enabled_history (s : DevConsoleState)
    (h : s.inputEnabled = true) (hlen : s.inputHistory.length ≤ 100) :
    (exec s).state.inputHistory
        = (s.inputString :: s.inputHistory).take 100 ∧
    (exec s).state.inputString = "" ∧
    (exec s).state.inputEnabled = true ∧
    (exec s).state.inputHistory.length ≤ 100 := by
  have key :
      (if (s.inputString :: s.inputHistory).length > 100 then
        (s.inputString :: s.inputHistory).dropLast
      else s.inputString :: s.inputHistory)
        = (s.inputString :: s.inputHistory).take 100 := by
    by_cases hover : (s.inputString :: s.inputHistory).length > 100
    · rw [if_pos hover, List.dropLast_eq_take]
      congr 1
      simp only [List.length_cons] at hover ⊢
      omega
    · rw [if_neg hover]
      refine (List.take_of_length_le ?_).symm
      simp only [List.length_cons] at hover ⊢
      omega
  have hunfold : exec s =
      { state :=
          { s with
            inputHistoryPosition := 0
            lines := if s.inputString = "clear" then [] else s.lines
            lastLine := if s.inputString = "clear" then [] else s.lastLine
            inputHistory := (s.inputString :: s.inputHistory).take 100
            inputString := ""
            inputTextDirty := true }
        submitted :=
          if s.inputString = "clear" then none else some s.inputString
        warned := false } := by
    unfold exec
    rw [h, key]
    rfl
  rw [hunfold]
  refine ⟨rfl, rfl, h, ?_⟩
  simp only [List.length_take]
  omega

/-- Folding enabled submissions from a within-capacity state: the
history is the reversed submissions in front of the old history,
truncated to capacity, and the input string ends empty unless no
submission happened. -/
lemma submitMany_history (cmds : List String) :
    ∀ s : DevConsoleState, s.inputEnabled = true →
      s.inputHistory.length ≤ 100 →
      (submitMany s cmds).inputHistory
          = (cmds.reverse ++ s.inputHistory).take 100 ∧
      (submitMany s cmds).inputEnabled = true ∧
      (submitMany s cmds).inputString
          = (if cmds = [] then s.inputString else "") := by
  induction cmds with
  | nil =>
      intro s h hlen
      refine ⟨?_, h, by simp [submitMany]⟩
      simp only [submitMany, List.foldl_nil, List.reverse_nil,
        List.nil_append]
      exact (List.take_of_length_le hlen).symm
  | cons c cs ih =>
      intro s h hlen
      have hstep := exec_enabled_history { s with inputString := c } h hlen
      have hrec := ih (exec { s with inputString := c }).state
        hstep.2.2.1 hstep.2.2.2
      have hunfold : submitMany s (c :: cs)
          = submitMany (exec { s with inputString := c }).state cs := rfl
      rw [hunfold]
      refine ⟨?_, hrec.2.1, ?_⟩
      · rw [hrec.1, hstep.1]
        simp only [List.reverse_cons, List.append_assoc,
          List.singleton_append]
        exact take_append_take 100 cs.reverse (c :: s.inputHistory)
      · rw [hrec.2.2]
        by_cases hcs : cs = [] <;> simp [hcs, hstep.2.1]

/-- The console with input enabled by the host (`EnableInput`) and
nothing yet submitted. -/
def enabledConsole : DevConsoleState :=
  { initialState with inputEnabled := true }

/-- C7: every enabled submission pushes the raw input string onto the
front of the history ring (no filtering of duplicates, empties or the
clear keyword), truncated to the fixed capacity 100, and clears the
input string; the ring length never exceeds 100; from a fresh console,
any sequence of submissions leaves exactly the most recent 100 commands
in most-recent-first order, and after 101 pairwise-distinct submissions
the oldest is absent. -/
theorem c7_history_ring_capacity (cmds : List String) :
    (∀ s : DevConsoleState, s.inputEnabled = true →
        s.inputHistory.length ≤ 100 →
      (exec s).state.inputHistory
          = (s.inputString :: s.inputHistory).take 100 ∧
      (exec s).state.inputString = "" ∧
      (exec s).state.inputHistory.length ≤ 100) ∧
    (submitMany enabledConsole cmds).inputHistory
        = cmds.reverse.take 100 ∧
    (submitMany enabledConsole cmds).inputHistory.length ≤ 100 ∧
    (cmds.length = 101 → cmds.Nodup →
      ∀ c0 rest, cmds = c0 :: rest →
        c0 ∉ (submitMany enabledConsole cmds).inputHistory) := by
  have hbase := submitMany_history cmds enabledConsole rfl (by decide)
  have hhist : (submitMany enabledConsole cmds).inputHistory
      = cmds.reverse.take 100 := by
    rw [hbase.1]
    simp [enabledConsole, initialState]
  refine ⟨?_, hhist, ?_, ?_⟩
  · intro s h hlen
    have := exec_enabled_history s h hlen
    exact ⟨this.1, this.2.1, this.2.2.2⟩
  · rw [hhist, List.length_take]
    omega
  · intro hlen101 hnodup c0 rest hcons
    subst hcons
    rw [hhist]
    have hrest : rest.length = 100 := by
      simp only [List.length_cons] at hlen101
      omega
    rw [List.reverse_cons, List.take_append_eq_append_take,
      List.take_of_length_le (by rw [List.length_reverse, hrest]),
      List.length_reverse, hrest]
    simp only [Nat.sub_self, List.take_zero, List.append_nil,
      List.mem_reverse]
    exact (List.nodup_cons.mp hnodup).1

/-- Witness for C7: one enabled submission pushes the raw command, and
two submissions sit newest-first in the ring. -/
theorem c7_history_ring_capacity_witness :
    (exec { enabledConsole with inputString := "clear" }).state.inputHistory
        = ["clear"] ∧
    (submitMany enabledConsole ["a", "b"]).inputHistory = ["b", "a"] := by
  have h := c7_history_ring_capacity ["a", "b"]
  constructor
  · rw [(h.1 { enabledConsole with inputString := "clear" } rfl
      (by decide)).1]
    decide
  · rw [h.2.1]
    decide

/-! ### Line-buffer lemmas -/

/-- `breakUpString` always yields at least one piece. -/
lemma breakUpString_ne_nil (b : Nat) (s : List Char) :
    breakUpString b s ≠ [] := by
  unfold breakUpString
  split <;> simp

/-- The pieces of `breakUpString`, concatenated, are the input:
no byte is lost or duplicated (bounded-length version). -/
lemma breakUpString_flatten_aux (b : Nat) :
    ∀ (n : Nat) (s : List Char), s.length ≤ n →
      (breakUpString b s).flatten = s := by
  intro n
  induction n with
  | zero =>
      intro s hs
      have hnil : s = [] := List.length_eq_zero.mp (Nat.le_zero.mp hs)
      subst hnil
      unfold breakUpString
      rw [dif_pos (Or.inr (by simp))]
      simp
  | succ n ih =>
      intro s hs
      unfold breakUpString
      split
      · simp
      · rename_i hcond
        simp only [not_or, not_le] at hcond
        simp only [List.flatten_cons]
        rw [ih (s.drop b) (by simp only [List.length_drop]; omega)]
        exact List.take_append_drop b s

/-- The pieces of `breakUpString`, concatenated, are the input. -/
lemma breakUpString_flatten (b : Nat) (s : List Char) :
    (breakUpString b s).flatten = s :=
  breakUpString_flatten_aux b s.length s le_rfl

/-- With a positive budget, every piece of `breakUpString` fits the
budget (bounded-length version). -/
lemma breakUpString_chunk_le_aux (b : Nat) (hb : 0 < b) :
    ∀ (n : Nat) (s : List Char), s.length ≤ n →
      ∀ c ∈ breakUpString b s, c.length ≤ b := by
  intro n
  induction n with
  | zero =>
      intro s hs c hc
      have hnil : s = [] := List.length_eq_zero.mp (Nat.le_zero.mp hs)
      subst hnil
      unfold breakUpString at hc
      rw [dif_pos (Or.inr (by simp))] at hc
      simp only [List.mem_singleton] at hc
      subst hc
      simp only [List.length_nil]
      omega
  | succ n ih =>
      intro s hs c hc
      unfold breakUpString at hc
      split at hc
      · rename_i hcond
        simp only [List.mem_singleton] at hc
        subst hc
        rcases hcond with h0 | hle
        · omega
        · exact hle
      · rename_i hcond
        simp only [not_or, not_le] at hcond
        simp only [List.mem_cons] at hc
        rcases hc with hc | hc
        · subst hc
          simp only [List.length_take]
          omega
        · exact ih (s.drop b) (by simp only [List.length_drop]; omega) c hc

/-- With a positive budget, every piece of `breakUpString` fits the
budget. -/
lemma breakUpString_chunk_le (b : Nat) (hb : 0 < b) (s : List Char)
    (c : List Char) (hc : c ∈ breakUpString b s) : c.length ≤ b :=
  breakUpString_chunk_le_aux b hb s.length s le_rfl c hc

/-- The full text held by the line buffer: every finalized line's text
in order, followed by the in-flight accumulator. -/
def bufferText (s : DevConsoleState) : List Char :=
  (s.lines.map Line.text).flatten ++ s.lastLine

/-- The finalized pieces plus the remainder piece are all the pieces. -/
lemma dropLast_flatten_getLastD (l : List (List Char)) (h : l ≠ []) :
    l.dropLast.flatten ++ l.getLastD [] = l.flatten := by
  conv_rhs => rw [← List.dropLast_append_getLast h]
  rw [List.flatten_append, List.getLastD_eq_getLast?,
    List.getLast?_eq_getLast l h]
  simp

/-- An eviction-free `Print` extends the buffer text by exactly the
appended text. -/
lemma printAppendU_bufferText (now : Nat) (s : DevConsoleState)
    (t : List Char) :
    bufferText (printAppendU now s t) = bufferText s ++ t := by
  unfold bufferText printAppendU
  simp only [List.map_append, List.flatten_append, List.map_map]
  have hmap :
      ∀ xs : List (List Char),
        xs.map (Line.text ∘ fun txt => { text := txt, creationTime := now })
          = xs := by
    intro xs
    induction xs with
    | nil => rfl
    | cons a l ihl => simp only [List.map_cons, ihl, Function.comp_apply]
  rw [hmap, List.append_assoc,
    dropLast_flatten_getLastD _
      (breakUpString_ne_nil kDevConsoleStringBreakUpSize (s.lastLine ++ t)),
    breakUpString_flatten]
  simp [List.append_assoc]

/-- A sequence of eviction-free `Print` calls extends the buffer text by
exactly the concatenation of the appended texts. -/
lemma printManyU_bufferText (ts : List (List Char)) :
    ∀ s : DevConsoleState,
      bufferText (printManyU s ts) = bufferText s ++ ts.flatten := by
  induction ts with
  | nil => intro s; simp [printManyU]
  | cons t rest ih =>
      intro s
      have hstep : printManyU s (t :: rest)
          = printManyU (printAppendU 0 s t) rest := rfl
      rw [hstep, ih, printAppendU_bufferText]
      simp [List.append_assoc]

/-- Eviction-free printing never shortens the line list. -/
lemma printManyU_lines_mono (ts : List (List Char)) :
    ∀ s : DevConsoleState,
      s.lines.length ≤ (printManyU s ts).lines.length := by
  induction ts with
  | nil => intro s; exact le_rfl
  | cons t rest ih =>
      intro s
      have hstep : printManyU s (t :: rest)
          = printManyU (printAppendU 0 s t) rest := rfl
      rw [hstep]
      refine le_trans ?_ (ih (printAppendU 0 s t))
      simp [printAppendU]

/-- Folding `pushLine` from a within-capacity list keeps exactly the
most recent `limit` entries: it is appending followed by dropping the
overflow from the front. -/
lemma pushLine_foldl (limit : Nat) :
    ∀ (new ls : List Line), ls.length ≤ limit →
      new.foldl (pushLine limit) ls
        = (ls ++ new).drop ((ls ++ new).length - limit) := by
  intro new
  induction new with
  | nil =>
      intro ls h
      simp only [List.foldl_nil, List.append_nil]
      rw [show ls.length - limit = 0 by omega, List.drop_zero]
  | cons l rest ih =>
      intro ls h
      simp only [List.foldl_cons]
      by_cases hover : limit < (ls ++ [l]).length
      · have hpush : pushLine limit ls l = (ls ++ [l]).tail := by
          unfold pushLine
          rw [if_pos hover]
        have htl : ((ls ++ [l]).tail).length ≤ limit := by
          simp only [List.length_tail, List.length_append,
            List.length_singleton]
          simp only [List.length_append, List.length_singleton] at hover
          omega
        have h1 : (ls ++ [l]).tail ++ rest = (ls ++ l :: rest).tail := by
          cases ls <;> simp
        rw [hpush, ih _ htl, h1, ← List.drop_one, List.drop_drop]
        congr 1
        simp only [List.length_tail, List.length_drop, List.length_append,
          List.length_cons, List.length_singleton]
        simp only [List.length_append, List.length_singleton] at hover
        omega
      · have hpush : pushLine limit ls l = ls ++ [l] := by
          unfold pushLine
          rw [if_neg hover]
        have hle : (ls ++ [l]).length ≤ limit := by omega
        rw [hpush, ih _ hle]
        have h2 : (ls ++ [l]) ++ rest = ls ++ l :: rest := by
          simp
        rw [h2]

/-- The `lines` field written by `printAppend`, as a fold of `pushLine`
over the finalized pieces. -/
lemma printAppend_lines (now : Nat) (s : DevConsoleState) (t : List Char) :
    (printAppend now s t).lines
      = ((breakUpString kDevConsoleStringBreakUpSize
            (s.lastLine ++ t)).dropLast.map
          (fun txt => Line.mk txt now)).foldl
          (pushLine kDevConsoleLineLimit) s.lines := by
  unfold printAppend
  rw [List.foldl_map]

/-- When the finalized lines all fit in the capacity, the bounded
`Print` and the eviction-free `Print` agree. -/
lemma printAppend_eq_printAppendU (now : Nat) (s : DevConsoleState)
    (t : List Char)
    (h : (printAppendU now s t).lines.length ≤ kDevConsoleLineLimit) :
    printAppend now s t = printAppendU now s t := by
  have hs : s.lines.length ≤ kDevConsoleLineLimit := by
    have : (printAppendU now s t).lines
        = s.lines ++ (breakUpString kDevConsoleStringBreakUpSize
            (s.lastLine ++ t)).dropLast.map
              (fun txt => Line.mk txt now) := rfl
    rw [this, List.length_append] at h
    omega
  have hlines : (printAppend now s t).lines = (printAppendU now s t).lines := by
    rw [printAppend_lines, pushLine_foldl kDevConsoleLineLimit _ _ hs]
    have htot : (s.lines ++ (breakUpString kDevConsoleStringBreakUpSize
        (s.lastLine ++ t)).dropLast.map
          (fun txt => Line.mk txt now)).length ≤ kDevConsoleLineLimit := h
    rw [show (s.lines ++ (breakUpString kDevConsoleStringBreakUpSize
        (s.lastLine ++ t)).dropLast.map
          (fun txt => Line.mk txt now)).length - kDevConsoleLineLimit = 0
      by omega, List.drop_zero]
    rfl
  apply DevConsoleState.ext <;> first
    | rfl
    | exact hlines

/-- When no eviction ever happens, a bounded `Print` sequence equals the
eviction-free sequence. -/
lemma printMany_eq_printManyU (ts : List (List Char)) :
    ∀ s : DevConsoleState,
      (printManyU s ts).lines.length ≤ kDevConsoleLineLimit →
      printMany s ts = printManyU s ts := by
  induction ts with
  | nil => intro s _; rfl
  | cons t rest ih =>
      intro s h
      have hU : printManyU s (t :: rest)
          = printManyU (printAppendU 0 s t) rest := rfl
      have hint : (printAppendU 0 s t).lines.length ≤ kDevConsoleLineLimit :=
        le_trans (printManyU_lines_mono rest (printAppendU 0 s t))
          (by rw [← hU]; exact h)
      have hstep := printAppend_eq_printAppendU 0 s t hint
      have hM : printMany s (t :: rest)
          = printMany (printAppend 0 s t) rest := rfl
      rw [hM, hstep, hU]
      exact ih (printAppendU 0 s t) (by rw [← hU]; exact h)

/-- Every line surviving a `pushLine` fold came from the start list or
from the new lines. -/
lemma mem_foldl_pushLine (limit : Nat) :
    ∀ (new ls : List Line) (l : Line),
      l ∈ new.foldl (pushLine limit) ls → l ∈ ls ∨ l ∈ new := by
  intro new
  induction new with
  | nil =>
      intro ls l h
      exact Or.inl h
  | cons x rest ih =>
      intro ls l h
      rcases ih (pushLine limit ls x) l h with h1 | h1
      · have hsub : pushLine limit ls x ⊆ ls ++ [x] := by
          unfold pushLine
          split
          · exact List.tail_subset _
          · exact List.Subset.refl _
        rcases List.mem_append.mp (hsub h1) with h2 | h2
        · exact Or.inl h2
        · simp only [List.mem_singleton] at h2
          subst h2
          exact Or.inr (List.mem_cons_self l rest)
      · exact Or.inr (List.mem_cons_of_mem x h1)

/-- Every finalized line a `Print` sequence retains fits the break-up
budget (assuming the starting lines do). -/
lemma printMany_width (ts : List (List Char)) :
    ∀ s : DevConsoleState,
      (∀ l ∈ s.lines, l.text.length ≤ kDevConsoleStringBreakUpSize) →
      ∀ l ∈ (printMany s ts).lines,
        l.text.length ≤ kDevConsoleStringBreakUpSize := by
  induction ts with
  | nil => intro s h; exact h
  | cons t rest ih =>
      intro s h
      have hM : printMany s (t :: rest)
          = printMany (printAppend 0 s t) rest := rfl
      rw [hM]
      refine ih (printAppend 0 s t) ?_
      intro l hl
      rw [printAppend_lines] at hl
      rcases mem_foldl_pushLine kDevConsoleLineLimit _ _ l hl with h1 | h1
      · exact h l h1
      · rcases List.mem_map.mp h1 with ⟨txt, htxt, rfl⟩
        exact breakUpString_chunk_le kDevConsoleStringBreakUpSize
          (by unfold kDevConsoleStringBreakUpSize; omega) _ txt
          (List.dropLast_subset _ htxt)

/-- Breaking up `(k+1)·b` copies of one character with budget `b` yields
`k+1` full pieces. -/
lemma breakUpString_replicate (b : Nat) (hb : 0 < b) (c : Char) :
    ∀ k : Nat,
      breakUpString b (List.replicate ((k + 1) * b) c)
        = List.replicate (k + 1) (List.replicate b c) := by
  intro k
  induction k with
  | zero =>
      unfold breakUpString
      rw [dif_pos (Or.inr (by simp))]
      simp
  | succ k ih =>
      have hgt : b < (k + 1 + 1) * b := by
        have h2 : 2 * b ≤ (k + 1 + 1) * b := Nat.mul_le_mul_right b (by omega)
        omega
      unfold breakUpString
      rw [dif_neg (by simp only [not_or, not_le, List.length_replicate]; omega)]
      rw [List.take_replicate, List.drop_replicate]
      have hmin : min b ((k + 1 + 1) * b) = b := Nat.min_eq_left (by omega)
      have hsub : (k + 1 + 1) * b - b = (k + 1) * b := by
        have : (k + 1 + 1) * b = (k + 1) * b + b := by ring
        omega
      rw [hmin, hsub, ih]
      rfl

/-- The input of the C4 counterexample: one `Print` call long enough to
finalize 82 budget-sized lines, two more than the 80-line capacity. -/
def hugePrintInput : List Char := List.replicate (82 * 1950) 'a'

/-- C4 counterexample: a single `Print` of `82 · 1950` characters
finalizes 81 full lines plus the accumulator, and the 80-line capacity
evicts the oldest line, so the retained text (80 lines of 1950 plus a
1950-character accumulator, 157950 characters) is strictly shorter than
the 159900 appended characters — the concatenation is not preserved. -/
theorem c4_print_concat_counterexample :
    bufferText (printMany initialState [hugePrintInput])
      ≠ [hugePrintInput].flatten := by
  have hbrk : breakUpString kDevConsoleStringBreakUpSize hugePrintInput
      = List.replicate 82 (List.replicate 1950 'a') := by
    have h := breakUpString_replicate 1950 (by omega) 'a' 81
    unfold hugePrintInput kDevConsoleStringBreakUpSize
    norm_num at h ⊢
    exact h
  have hone : printMany initialState [hugePrintInput]
      = printAppend 0 initialState hugePrintInput := rfl
  have hpre : initialState.lastLine ++ hugePrintInput = hugePrintInput := rfl
  have hlines : (printAppend 0 initialState hugePrintInput).lines
      = List.replicate 80 (Line.mk (List.replicate 1950 'a') 0) := by
    rw [printAppend_lines, hpre, hbrk]
    rw [show (List.replicate 82 (List.replicate 1950 'a')).dropLast
        = List.replicate 81 (List.replicate 1950 'a') from
      List.dropLast_replicate 82 _]
    rw [List.map_replicate]
    rw [pushLine_foldl kDevConsoleLineLimit _ initialState.lines
      (by unfold initialState kDevConsoleLineLimit; simp)]
    rw [show initialState.lines
        ++ List.replicate 81 (Line.mk (List.replicate 1950 'a') 0)
      = List.replicate 81 (Line.mk (List.replicate 1950 'a') 0) from rfl]
    rw [List.length_replicate, List.drop_replicate]
    rfl
  have hlast : (printAppend 0 initialState hugePrintInput).lastLine
      = List.replicate 1950 'a' := by
    show (breakUpString kDevConsoleStringBreakUpSize
      (initialState.lastLine ++ hugePrintInput)).getLastD []
        = List.replicate 1950 'a'
    rw [hpre, hbrk, List.replicate_succ' 81, List.getLastD_concat]
  intro hEq
  have hlen := congrArg List.length hEq
  rw [hone] at hlen
  unfold bufferText at hlen
  rw [hlines, hlast] at hlen
  simp only [List.map_replicate, List.length_append, List.length_flatten,
    List.map_replicate, List.sum_replicate, List.length_replicate,
    List.flatten_cons, List.flatten_nil, List.append_nil, smul_eq_mul,
    hugePrintInput] at hlen
  omega

/-- C4 amended: as long as no more than the 80-line capacity is ever
finalized (no eviction), a sequence of `Print` calls loses nothing: the
bounded buffer equals the eviction-free buffer and the concatenation of
all finalized lines plus the final accumulator is byte-for-byte the
concatenation of everything appended.  Exceeding the capacity evicts
oldest lines (see the counterexample), so only a suffix survives in
general.  Every finalized line always fits the fixed break-up budget. -/
theorem c4_print_concat_amended (ts : List (List Char))
    (hcap : (printManyU initialState ts).lines.length
      ≤ kDevConsoleLineLimit) :
    printMany initialState ts = printManyU initialState ts ∧
    bufferText (printMany initialState ts) = ts.flatten ∧
    ∀ l ∈ (printMany initialState ts).lines,
      l.text.length ≤ kDevConsoleStringBreakUpSize := by
  have heq := printMany_eq_printManyU ts initialState hcap
  refine ⟨heq, ?_, ?_⟩
  · rw [heq, printManyU_bufferText]
    rfl
  · exact printMany_width ts initialState (by intro l hl; simp [initialState] at hl)

/-- Witness for C4 amended: printing `"hi"` then `"!"` finalizes no line
(far under budget), so the buffer text is exactly `"hi!"` and the
capacity hypothesis holds. -/
theorem c4_print_concat_amended_witness :
    (printManyU initialState [['h', 'i'], ['!']]).lines.length
        ≤ kDevConsoleLineLimit ∧
    bufferText (printMany initialState [['h', 'i'], ['!']])
        = ['h', 'i', '!'] := by
  have hcap : (printManyU initialState [['h', 'i'], ['!']]).lines.length
      ≤ kDevConsoleLineLimit := by
    have h1 : breakUpString kDevConsoleStringBreakUpSize
        (initialState.lastLine ++ ['h', 'i']) = [['h', 'i']] := by
      unfold breakUpString
      rw [dif_pos (Or.inr
        (by norm_num [kDevConsoleStringBreakUpSize, initialState]))]
      rfl
    have h2 : (printAppendU 0 initialState ['h', 'i']).lastLine
        = ['h', 'i'] := by
      show (breakUpString kDevConsoleStringBreakUpSize
        (initialState.lastLine ++ ['h', 'i'])).getLastD [] = ['h', 'i']
      rw [h1]
      rfl
    have h3 : breakUpString kDevConsoleStringBreakUpSize
        ((printAppendU 0 initialState ['h', 'i']).lastLine ++ ['!'])
          = [['h', 'i', '!']] := by
      rw [h2]
      unfold breakUpString
      rw [dif_pos (Or.inr (by norm_num [kDevConsoleStringBreakUpSize]))]
      rfl
    show ((printAppendU 0 (printAppendU 0 initialState ['h', 'i'])
        ['!']).lines).length ≤ kDevConsoleLineLimit
    show ((printAppendU 0 initialState ['h', 'i']).lines
        ++ (breakUpString kDevConsoleStringBreakUpSize
            ((printAppendU 0 initialState ['h', 'i']).lastLine ++ ['!'])
          ).dropLast.map (fun txt => Line.mk txt 0)).length
      ≤ kDevConsoleLineLimit
    rw [h3]
    show ((initialState.lines
        ++ (breakUpString kDevConsoleStringBreakUpSize
            (initialState.lastLine ++ ['h', 'i'])).dropLast.map
          (fun txt => Line.mk txt 0))
        ++ ([['h', 'i', '!']] : List (List Char)).dropLast.map
          (fun txt => Line.mk txt 0)).length ≤ kDevConsoleLineLimit
    rw [h1]
    norm_num [initialState, kDevConsoleLineLimit]
  have h := c4_print_concat_amended [['h', 'i'], ['!']] hcap
  refine ⟨hcap, ?_⟩
  rw [h.2.1]
  rfl

end DevConsoleModel
